import Mathlib

/-!
Verification of the `tonks` parallel task scheduler core
(src/src/scheduler/mod.rs, src/src/system.rs) against its
natural-language specification.

The dispatch engine is embedded shallowly: the `Scheduler` struct is
split into the immutable execution plan (`Plan`) and the mutable engine
state (`SchedState`).  Machine integers become `Nat`; the `BitSet` of
write-locked resources becomes a `Finset Nat`; the `Vec<u8>` of shared
borrow counts becomes a `List Nat` (overflow of the u8 element type is
analysed separately against the bound 255).  The completion channel is
modelled by an explicit oracle: a list of the messages the engine
receives, in order.  Tasks spawned onto the worker pool and not yet
completed are tracked in the model field `inflight`; the only senders on
the channel are `dispatch_stage` and `dispatch_system`, so a received
message always names an inflight task, which the model expresses by
rejecting any other message.
-/

namespace Tonks

/-- A task to run: either a whole stage or a oneshot system
(enum `Task` in scheduler/mod.rs; stage and system ids are the dense
`StageId` / `SystemId` integers). -/
inductive Task where
  | Stage : Nat → Task
  | Oneshot : Nat → Task
deriving DecidableEq, Repr, Inhabited

/-- A message sent from a running task to the scheduler
(enum `TaskMessage` in scheduler/mod.rs). -/
inductive TaskMessage where
  | SystemComplete : Nat → TaskMessage
  | StageComplete : Nat → TaskMessage
deriving DecidableEq, Repr, Inhabited

/-- The immutable part of the `Scheduler` struct: the execution plan
produced by the builder (fields `stages`, `system_reads`,
`system_writes`, `stage_reads`, `stage_writes`). -/
structure Plan where
  stages : List (List Nat)
  system_reads : List (List Nat)
  system_writes : List (List Nat)
  stage_reads : List (List Nat)
  stage_writes : List (List Nat)
deriving DecidableEq, Repr, Inhabited

/-- The mutable part of the `Scheduler` struct.  `inflight` is the model
of the set of tasks spawned on the worker pool whose completion message
has not been processed yet; it is not a field of the Rust struct but the
state of the pool and channel it communicates with. -/
structure SchedState where
  task_queue : List Task
  writes_held : Finset Nat
  reads_held : List Nat
  runnning_systems_count : Nat
  running_systems : Finset Nat
  inflight : List Task
deriving DecidableEq, Inhabited

/-- One iteration of `reads_held[read.0] += 1`. -/
def incAt (rh : List Nat) (i : Nat) : List Nat :=
  rh.set i (rh.getD i 0 + 1)

/-- One iteration of `reads_held[read.0] -= 1`. -/
def decAt (rh : List Nat) (i : Nat) : List Nat :=
  rh.set i (rh.getD i 0 - 1)

/-- Translation of `try_obtain_resources` (scheduler/mod.rs lines
416-448).  The Rust function mutates `reads_held` / `writes_held` in
place and returns `Result<(), ()>`; here the boolean is `true` for `Ok`
and the new values of the two ledger components are returned alongside.
Both conflict checks run before any mutation, exactly as in the source:
the two early `return Err(())` paths yield the input ledger unchanged. -/
def try_obtain_resources (reads writes : List Nat) (reads_held : List Nat)
    (writes_held : Finset Nat) : Bool × List Nat × Finset Nat :=
  if (reads ++ writes).any (fun r => decide (r ∈ writes_held)) then
    (false, reads_held, writes_held)
  else if writes.any (fun r => decide (0 < reads_held.getD r 0)) then
    (false, reads_held, writes_held)
  else
    (true, reads.foldl incAt reads_held,
      writes.foldl (fun s w => insert w s) writes_held)

/-- Translation of `release_resources_for_system` (scheduler/mod.rs
lines 325-336): decrement the count of each read, remove each write. -/
def release_resources_for_system (p : Plan) (reads_held : List Nat)
    (writes_held : Finset Nat) (id : Nat) : List Nat × Finset Nat :=
  ((p.system_reads.getD id []).foldl decAt reads_held,
   (p.system_writes.getD id []).foldl (fun s w => s.erase w) writes_held)

/-- Translation of `release_resources_for_stage` (scheduler/mod.rs lines
338-346). -/
def release_resources_for_stage (p : Plan) (reads_held : List Nat)
    (writes_held : Finset Nat) (id : Nat) : List Nat × Finset Nat :=
  ((p.stage_reads.getD id []).foldl decAt reads_held,
   (p.stage_writes.getD id []).foldl (fun s w => s.erase w) writes_held)

/-- Translation of `reads_for_task` (scheduler/mod.rs lines 450-459). -/
def reads_for_task (p : Plan) (task : Task) : List Nat :=
  match task with
  | .Stage id => p.stage_reads.getD id []
  | .Oneshot id => p.system_reads.getD id []

/-- Translation of `writes_for_task` (scheduler/mod.rs lines 461-470). -/
def writes_for_task (p : Plan) (task : Task) : List Nat :=
  match task with
  | .Stage id => p.stage_writes.getD id []
  | .Oneshot id => p.system_writes.getD id []

/-- Number of systems a task represents: the value `dispatch_task`
returns (stage cardinality for a stage, 1 for a oneshot). -/
def task_size (p : Plan) (task : Task) : Nat :=
  match task with
  | .Stage id => (p.stages.getD id []).length
  | .Oneshot _ => 1

/-- Translation of `dispatch_task` (scheduler/mod.rs lines 348-365):
set the `running_systems` bits and spawn the task on the pool (the
spawn is modelled by appending to `inflight`); returns the number of
systems spawned. -/
def dispatch_task (p : Plan) (s : SchedState) (task : Task) :
    SchedState × Nat :=
  match task with
  | .Stage id =>
    ({ s with
        running_systems :=
          (p.stages.getD id []).foldl (fun rs i => insert i rs)
            s.running_systems,
        inflight := s.inflight ++ [task] },
     (p.stages.getD id []).length)
  | .Oneshot id =>
    ({ s with
        running_systems := insert id s.running_systems,
        inflight := s.inflight ++ [task] }, 1)

/-- Translation of `wait_for_completion` (scheduler/mod.rs lines
297-323): receive one message and handle it, returning the number of
systems that completed.  The only senders on the channel are the
closures spawned by `dispatch_stage` / `dispatch_system`, each sending
exactly one message for its own task, so a received message always
names an inflight task; a message that does not is rejected (`none`),
which is unreachable in the real system. -/
def wait_for_completion (p : Plan) (s : SchedState) (msg : TaskMessage) :
    Option (SchedState × Nat) :=
  match msg with
  | .SystemComplete id =>
    if Task.Oneshot id ∈ s.inflight then
      let rw := release_resources_for_system p s.reads_held s.writes_held id
      some ({ s with
          reads_held := rw.1,
          writes_held := rw.2,
          running_systems := s.running_systems.erase id,
          inflight := s.inflight.erase (Task.Oneshot id) }, 1)
    else none
  | .StageComplete id =>
    if Task.Stage id ∈ s.inflight then
      let rw := release_resources_for_stage p s.reads_held s.writes_held id
      some ({ s with
          reads_held := rw.1,
          writes_held := rw.2,
          running_systems :=
            (p.stages.getD id []).foldl (fun rs i => rs.erase i)
              s.running_systems,
          inflight := s.inflight.erase (Task.Stage id) }, (p.stages.getD id []).length)
    else none

/-- Translation of `run_task` (scheduler/mod.rs lines 276-295).  The
state `s` is the scheduler after the task was popped from the queue.
On success the task is dispatched and the running count grows; on
conflict the task is pushed back to the front of the queue and the
engine blocks for exactly one message (`recv`), modelled by consuming
the head of the oracle; an empty oracle means the blocked `recv` never
returns, hence `none`. -/
def run_task (p : Plan) (s : SchedState) (task : Task)
    (oracle : List TaskMessage) :
    Option (SchedState × List TaskMessage) :=
  let reads := reads_for_task p task
  let writes := writes_for_task p task
  let res := try_obtain_resources reads writes s.reads_held s.writes_held
  if res.1 then
    let d := dispatch_task p { s with reads_held := res.2.1, writes_held := res.2.2 } task
    some ({ d.1 with runnning_systems_count := d.1.runnning_systems_count + d.2 },
      oracle)
  else
    match oracle with
    | [] => none
    | m :: o =>
      match wait_for_completion p { s with task_queue := task :: s.task_queue } m with
      | none => none
      | some (s', num) =>
        some ({ s' with runnning_systems_count := s'.runnning_systems_count - num }, o)

/-- Translation of `create_task_queue` (scheduler/mod.rs lines
241-247): one `Stage(i)` entry per stage, in plan order. -/
def create_task_queue (stages : List (List Nat)) : List Task :=
  (List.range stages.length).map Task.Stage

/-- The first loop of `execute`: while the queue is nonempty, pop the
front task and run it.  `fuel` bounds the number of iterations so the
recursion is well founded; `none` means the fuel ran out or the engine
blocked forever. -/
def drain (fuel : Nat) (p : Plan) (s : SchedState)
    (oracle : List TaskMessage) :
    Option (SchedState × List TaskMessage) :=
  match fuel with
  | 0 => none
  | fuel + 1 =>
    match s.task_queue with
    | [] => some (s, oracle)
    | t :: q =>
      match run_task p { s with task_queue := q } t oracle with
      | none => none
      | some (s', o') => drain fuel p s' o'

/-- The second loop of `execute`: while systems are still running, wait
for one completion message, then drain any newly-enqueued tasks. -/
def join (fuel : Nat) (p : Plan) (s : SchedState)
    (oracle : List TaskMessage) : Option SchedState :=
  match fuel with
  | 0 => none
  | fuel + 1 =>
    if s.runnning_systems_count = 0 then some s
    else
      match oracle with
      | [] => none
      | m :: o =>
        match wait_for_completion p s m with
        | none => none
        | some (s', num) =>
          let s2 := { s' with
            runnning_systems_count := s'.runnning_systems_count - num }
          match drain fuel p s2 o with
          | none => none
          | some (s3, o3) => join fuel p s3 o3

/-- Translation of `Scheduler::execute` (scheduler/mod.rs lines
250-274).  The source asserts `task_queue.is_empty()` (a failed
assertion, i.e. a panic, is `none`), then extends the empty queue with
the starting queue and runs the two loops. -/
def execute (fuel : Nat) (p : Plan) (s : SchedState)
    (oracle : List TaskMessage) : Option SchedState :=
  if s.task_queue = [] then
    match drain fuel p { s with task_queue := create_task_queue p.stages } oracle with
    | none => none
    | some (s', o') => join fuel p s' o'
  else none

/-- The engine state `Scheduler::new` builds: empty queue, empty ledger
over `nres` resource ids (`reads_held = vec![0; nres]`), nothing
running. -/
def initState (nres : Nat) : SchedState :=
  { task_queue := []
    writes_held := ∅
    reads_held := List.replicate nres 0
    runnning_systems_count := 0
    running_systems := ∅
    inflight := [] }

/-! ### Basic lemmas about the ledger update folds -/

theorem getD_set_self {l : List Nat} {i : Nat} {v : Nat} (h : i < l.length) :
    (l.set i v).getD i 0 = v := by
  rw [List.getD_eq_getElem?_getD, List.getElem?_set_self h]
  rfl

theorem getD_set_ne {l : List Nat} {i j : Nat} {v : Nat} (h : i ≠ j) :
    (l.set i v).getD j 0 = l.getD j 0 := by
  rw [List.getD_eq_getElem?_getD, List.getElem?_set_ne h,
    ← List.getD_eq_getElem?_getD]

theorem getD_of_length_le {l : List Nat} {i : Nat} (h : l.length ≤ i) :
    l.getD i 0 = 0 := by
  rw [List.getD_eq_getElem?_getD, List.getElem?_eq_none h]
  rfl

theorem length_incAt (rh : List Nat) (i : Nat) :
    (incAt rh i).length = rh.length := List.length_set ..

theorem length_decAt (rh : List Nat) (i : Nat) :
    (decAt rh i).length = rh.length := List.length_set ..

theorem getD_incAt_self {rh : List Nat} {i : Nat} (h : i < rh.length) :
    (incAt rh i).getD i 0 = rh.getD i 0 + 1 := getD_set_self h

theorem getD_incAt_ne {rh : List Nat} {i j : Nat} (h : i ≠ j) :
    (incAt rh i).getD j 0 = rh.getD j 0 := getD_set_ne h

theorem getD_decAt_self (rh : List Nat) (i : Nat) :
    (decAt rh i).getD i 0 = rh.getD i 0 - 1 := by
  by_cases h : i < rh.length
  · exact getD_set_self h
  · push_neg at h
    rw [decAt, List.set_eq_of_length_le h, getD_of_length_le h]

theorem getD_decAt_ne {rh : List Nat} {i j : Nat} (h : i ≠ j) :
    (decAt rh i).getD j 0 = rh.getD j 0 := getD_set_ne h

theorem length_foldl_incAt (l : List Nat) (rh : List Nat) :
    (l.foldl incAt rh).length = rh.length := by
  induction l generalizing rh with
  | nil => rfl
  | cons x xs ih => rw [List.foldl_cons, ih, length_incAt]

theorem length_foldl_decAt (l : List Nat) (rh : List Nat) :
    (l.foldl decAt rh).length = rh.length := by
  induction l generalizing rh with
  | nil => rfl
  | cons x xs ih => rw [List.foldl_cons, ih, length_decAt]

theorem getD_foldl_incAt (l : List Nat) (rh : List Nat)
    (h : ∀ x ∈ l, x < rh.length) (r : Nat) :
    (l.foldl incAt rh).getD r 0 = rh.getD r 0 + l.count r := by
  induction l generalizing rh with
  | nil => simp
  | cons x xs ih =>
    rw [List.foldl_cons, ih (incAt rh x)
      (fun y hy => (length_incAt rh x).symm ▸ h y (List.mem_cons_of_mem x hy))]
    by_cases hxr : x = r
    · subst hxr
      rw [getD_incAt_self (h x (List.mem_cons_self x xs)), List.count_cons_self]
      omega
    · rw [getD_incAt_ne hxr, List.count_cons_of_ne (fun hrx => hxr hrx.symm)]

theorem getD_foldl_incAt_not_mem : ∀ (l : List Nat) (rh : List Nat)
    (r : Nat), r ∉ l → (l.foldl incAt rh).getD r 0 = rh.getD r 0 := by
  intro l
  induction l with
  | nil => intro rh r _; rfl
  | cons x xs ih =>
    intro rh r h
    rw [List.foldl_cons, ih (incAt rh x) r (List.not_mem_of_not_mem_cons h),
      getD_incAt_ne (fun hxr => h (by rw [← hxr]; exact List.mem_cons_self x xs))]

theorem getD_foldl_decAt (l : List Nat) (rh : List Nat) (r : Nat) :
    (l.foldl decAt rh).getD r 0 = rh.getD r 0 - l.count r := by
  induction l generalizing rh with
  | nil => simp
  | cons x xs ih =>
    rw [List.foldl_cons, ih (decAt rh x)]
    by_cases hxr : x = r
    · subst hxr
      rw [getD_decAt_self, List.count_cons_self]
      omega
    · rw [getD_decAt_ne hxr, List.count_cons_of_ne (fun hrx => hxr hrx.symm)]

theorem mem_foldl_insert (l : List Nat) (s : Finset Nat) (r : Nat) :
    r ∈ l.foldl (fun s w => insert w s) s ↔ r ∈ s ∨ r ∈ l := by
  induction l generalizing s with
  | nil => simp
  | cons x xs ih =>
    rw [List.foldl_cons, ih]
    simp only [Finset.mem_insert, List.mem_cons]
    tauto

theorem mem_foldl_erase (l : List Nat) (s : Finset Nat) (r : Nat) :
    r ∈ l.foldl (fun s w => s.erase w) s ↔ r ∈ s ∧ r ∉ l := by
  induction l generalizing s with
  | nil => simp
  | cons x xs ih =>
    rw [List.foldl_cons, ih]
    simp only [Finset.mem_erase, List.mem_cons]
    tauto

/-! ### Characterisation of the acquisition function -/

/-- The success condition of `try_obtain_resources`: no requested id is
write-held, and no requested write is read-held. -/
theorem try_obtain_ok_iff (reads writes rh : List Nat) (wh : Finset Nat) :
    (try_obtain_resources reads writes rh wh).1 = true ↔
      (∀ r ∈ reads ++ writes, r ∉ wh) ∧ ∀ r ∈ writes, rh.getD r 0 = 0 := by
  unfold try_obtain_resources
  split_ifs with h1 h2
  · simp only [List.any_eq_true, decide_eq_true_iff] at h1
    obtain ⟨x, hx, hxw⟩ := h1
    exact iff_of_false (by simp) (fun hP => hP.1 x hx hxw)
  · simp only [List.any_eq_true, decide_eq_true_iff] at h2
    obtain ⟨x, hx, hxr⟩ := h2
    exact iff_of_false (by simp) (fun hP => by have := hP.2 x hx; omega)
  · simp only [List.any_eq_true, decide_eq_true_iff] at h1 h2
    push_neg at h1 h2
    refine iff_of_true rfl ⟨h1, fun r hr => ?_⟩
    have := h2 r hr
    omega

theorem try_obtain_ok_iff' (reads writes rh : List Nat) (wh : Finset Nat) :
    (try_obtain_resources reads writes rh wh).1 = true ↔
      (∀ r ∈ reads, r ∉ wh) ∧ (∀ r ∈ writes, r ∉ wh) ∧
        ∀ r ∈ writes, rh.getD r 0 = 0 := by
  rw [try_obtain_ok_iff]
  simp only [List.mem_append]
  constructor
  · intro ⟨ha, hb⟩
    exact ⟨fun r hr => ha r (Or.inl hr), fun r hr => ha r (Or.inr hr), hb⟩
  · intro ⟨ha, hb, hc⟩
    exact ⟨fun r hr => hr.elim (ha r) (hb r), hc⟩

/-- On success the ledger components are updated by the two mutation
loops. -/
theorem try_obtain_ok_state (reads writes rh : List Nat) (wh : Finset Nat)
    (h : (try_obtain_resources reads writes rh wh).1 = true) :
    (try_obtain_resources reads writes rh wh).2.1 = reads.foldl incAt rh ∧
      (try_obtain_resources reads writes rh wh).2.2 =
        writes.foldl (fun s w => insert w s) wh := by
  unfold try_obtain_resources at h ⊢
  split_ifs at h ⊢
  exact ⟨rfl, rfl⟩

/-- On failure the ledger components are returned untouched. -/
theorem try_obtain_err_state (reads writes rh : List Nat) (wh : Finset Nat)
    (h : (try_obtain_resources reads writes rh wh).1 = false) :
    (try_obtain_resources reads writes rh wh).2.1 = rh ∧
      (try_obtain_resources reads writes rh wh).2.2 = wh := by
  unfold try_obtain_resources at h ⊢
  split_ifs at h ⊢ <;> exact ⟨rfl, rfl⟩

/-- The failure condition of `try_obtain_resources`. -/
theorem try_obtain_err_iff (reads writes rh : List Nat) (wh : Finset Nat) :
    (try_obtain_resources reads writes rh wh).1 = false ↔
      (∃ r, (r ∈ reads ∨ r ∈ writes) ∧ r ∈ wh) ∨
        ∃ r ∈ writes, 0 < rh.getD r 0 := by
  rw [Bool.eq_false_iff, Ne, try_obtain_ok_iff, not_and_or]
  constructor
  · rintro (h1 | h2)
    · push_neg at h1
      obtain ⟨r, hr, hrw⟩ := h1
      exact Or.inl ⟨r, List.mem_append.mp hr, hrw⟩
    · push_neg at h2
      obtain ⟨r, hr, hne⟩ := h2
      exact Or.inr ⟨r, hr, by omega⟩
  · rintro (⟨r, hr, hrw⟩ | ⟨r, hr, hpos⟩)
    · exact Or.inl (fun hA => hA r (List.mem_append.mpr hr) hrw)
    · exact Or.inr (fun hB => by have := hB r hr; omega)

/-! ### Claim C1 -/

/-- C1: `try_obtain_resources` succeeds iff no id in reads ∪ writes is
in `writes_held` and no id in writes has a positive `reads_held` count;
on success it increments the shared count of every id in `reads` once
per occurrence and inserts every id in `writes` into `writes_held`; on
failure (`false`, i.e. `Err`) it reports a conflict, which happens
exactly when the success condition fails. -/
theorem C1_try_obtain_resources_correct (reads writes rh : List Nat)
    (wh : Finset Nat) (hwf : ∀ r ∈ reads, r < rh.length) :
    ((try_obtain_resources reads writes rh wh).1 = true ↔
      (∀ r, (r ∈ reads ∨ r ∈ writes) → r ∉ wh) ∧
        ∀ r ∈ writes, rh.getD r 0 = 0) ∧
    ((try_obtain_resources reads writes rh wh).1 = true →
      (∀ r, ((try_obtain_resources reads writes rh wh).2.1).getD r 0 =
          rh.getD r 0 + reads.count r) ∧
      (∀ r, r ∈ (try_obtain_resources reads writes rh wh).2.2 ↔
          r ∈ wh ∨ r ∈ writes)) ∧
    ((try_obtain_resources reads writes rh wh).1 = false ↔
      ¬ ((∀ r, (r ∈ reads ∨ r ∈ writes) → r ∉ wh) ∧
        ∀ r ∈ writes, rh.getD r 0 = 0)) := by
  have hiff : (try_obtain_resources reads writes rh wh).1 = true ↔
      (∀ r, (r ∈ reads ∨ r ∈ writes) → r ∉ wh) ∧
        ∀ r ∈ writes, rh.getD r 0 = 0 := by
    rw [try_obtain_ok_iff]
    simp only [List.mem_append]
  refine ⟨hiff, fun h => ?_, ?_⟩
  · obtain ⟨h1, h2⟩ := try_obtain_ok_state reads writes rh wh h
    constructor
    · intro r
      rw [h1, getD_foldl_incAt reads rh hwf r]
    · intro r
      rw [h2, mem_foldl_insert]
  · rw [← hiff]
    cases (try_obtain_resources reads writes rh wh).1 <;> simp

/-- Witness for C1, at reads = [0], writes = [1], ledger [0, 0], no
writes held: acquisition succeeds, counts update as stated. -/
theorem C1_try_obtain_resources_correct_witness :
    (∀ r ∈ [0], r < ([0, 0] : List Nat).length) ∧
      ((try_obtain_resources [0] [1] [0, 0] ∅).1 = true ↔
        (∀ r, (r ∈ [0] ∨ r ∈ [1]) → r ∉ (∅ : Finset Nat)) ∧
          ∀ r ∈ [1], ([0, 0] : List Nat).getD r 0 = 0) :=
  ⟨by decide,
    (C1_try_obtain_resources_correct [0] [1] [0, 0] ∅ (by decide)).1⟩

/-! ### Claim C10 -/

/-- C10: whenever `try_obtain_resources` returns a conflict (`Err`), the
ledger is left exactly unchanged — no count incremented, no id inserted
— because both conflict checks complete before any mutation; and the
conflict cases are exactly those where some requested id is write-held
or some requested write is read-held. -/
theorem C10_try_obtain_err_unchanged (reads writes rh : List Nat)
    (wh : Finset Nat) :
    ((try_obtain_resources reads writes rh wh).1 = false ↔
      (∃ r, (r ∈ reads ∨ r ∈ writes) ∧ r ∈ wh) ∨
        ∃ r ∈ writes, 0 < rh.getD r 0) ∧
    ((try_obtain_resources reads writes rh wh).1 = false →
      (try_obtain_resources reads writes rh wh).2.1 = rh ∧
        (try_obtain_resources reads writes rh wh).2.2 = wh) :=
  ⟨try_obtain_err_iff reads writes rh wh,
    try_obtain_err_state reads writes rh wh⟩

/-- Witness for C10, at a conflicting input (resource 0 requested for
reading while write-held): the ledger comes back untouched. -/
theorem C10_try_obtain_err_unchanged_witness :
    (try_obtain_resources [0] [] [5] {0}).1 = false ∧
      (try_obtain_resources [0] [] [5] {0}).2.1 = [5] ∧
        (try_obtain_resources [0] [] [5] {0}).2.2 = {0} :=
  ⟨by decide, (C10_try_obtain_err_unchanged [0] [] [5] {0}).2 (by decide)⟩

/-! ### Claim C2 -/

/-- The ledger aliasing invariant of the spec: no resource is both
write-held and shared-held. -/
def LedgerDisjoint (rh : List Nat) (wh : Finset Nat) : Prop :=
  ∀ r ∈ wh, rh.getD r 0 = 0

instance (rh : List Nat) (wh : Finset Nat) :
    Decidable (LedgerDisjoint rh wh) := by
  unfold LedgerDisjoint
  infer_instance

/-- C2: every engine step that mutates the ledger — acquisition via
`try_obtain_resources` (whether it succeeds or conflicts), release via
`release_resources_for_stage` and `release_resources_for_system` —
preserves the invariant that no ResourceId is simultaneously in
`writes_held` and shared-held, assuming the acquired task reads and
writes share no ResourceId. -/
theorem C2_ledger_steps_preserve_disjoint (p : Plan)
    (reads writes rh : List Nat) (wh : Finset Nat) (id : Nat)
    (hL : LedgerDisjoint rh wh) (hdisj : ∀ r ∈ writes, r ∉ reads) :
    LedgerDisjoint (try_obtain_resources reads writes rh wh).2.1
        (try_obtain_resources reads writes rh wh).2.2 ∧
      LedgerDisjoint (release_resources_for_stage p rh wh id).1
        (release_resources_for_stage p rh wh id).2 ∧
      LedgerDisjoint (release_resources_for_system p rh wh id).1
        (release_resources_for_system p rh wh id).2 := by
  refine ⟨?_, ?_, ?_⟩
  · cases hb : (try_obtain_resources reads writes rh wh).1
    · obtain ⟨h1, h2⟩ := try_obtain_err_state reads writes rh wh hb
      rw [h1, h2]; exact hL
    · obtain ⟨h1, h2⟩ := try_obtain_ok_state reads writes rh wh hb
      obtain ⟨hok1, hok2, hok3⟩ := (try_obtain_ok_iff' reads writes rh wh).mp hb
      intro r hr
      rw [h2, mem_foldl_insert] at hr
      rw [h1]
      rcases hr with hr | hr
      · have hnr : r ∉ reads := fun hmem => hok1 r hmem hr
        rw [getD_foldl_incAt_not_mem reads rh r hnr]
        exact hL r hr
      · rw [getD_foldl_incAt_not_mem reads rh r (hdisj r hr)]
        exact hok3 r hr
  · intro r hr
    simp only [release_resources_for_stage] at hr ⊢
    rw [mem_foldl_erase] at hr
    rw [getD_foldl_decAt, hL r hr.1]
    omega
  · intro r hr
    simp only [release_resources_for_system] at hr ⊢
    rw [mem_foldl_erase] at hr
    rw [getD_foldl_decAt, hL r hr.1]
    omega

/-- Witness for C2 at a concrete ledger (resource 0 write-held with
count 0, resource 1 shared-held) and a task reading [1], writing [0]. -/
theorem C2_ledger_steps_preserve_disjoint_witness :
    LedgerDisjoint [0, 2] {0} ∧ (∀ r ∈ [0], r ∉ [1]) ∧
      LedgerDisjoint
        (try_obtain_resources [1] [0] [0, 2] {0}).2.1
        (try_obtain_resources [1] [0] [0, 2] {0}).2.2 :=
  ⟨by decide, by decide,
    (C2_ledger_steps_preserve_disjoint
      { stages := [], system_reads := [], system_writes := [],
        stage_reads := [], stage_writes := [] }
      [1] [0] [0, 2] {0} 0 (by decide) (by decide)).1⟩

/-! ### Plan wellformedness and the dispatch invariant -/

/-- Wellformedness of one task: its resource ids index into the
`reads_held` vector, and its read and write lists are disjoint (a
system input is either read-only or read-write, never both, and the
planner keeps writers of a resource out of stages that access it). -/
def TaskWF (p : Plan) (nres : Nat) (t : Task) : Prop :=
  (∀ r ∈ reads_for_task p t, r < nres) ∧
    (∀ r ∈ writes_for_task p t, r < nres) ∧
    ∀ r ∈ writes_for_task p t, r ∉ reads_for_task p t

instance (p : Plan) (nres : Nat) (t : Task) : Decidable (TaskWF p nres t) := by
  unfold TaskWF
  infer_instance

/-- Wellformedness of a plan over `nres` resource ids: every task of
the starting queue is wellformed, and an empty stage has empty
aggregate lists (true by construction in `Scheduler::new`, where the
aggregates are concatenations over the systems of the stage). -/
def PlanWF (p : Plan) (nres : Nat) : Prop :=
  (∀ t ∈ create_task_queue p.stages, TaskWF p nres t) ∧
    ∀ i < p.stages.length, p.stages.getD i [] = [] →
      p.stage_reads.getD i [] = [] ∧ p.stage_writes.getD i [] = []

instance (p : Plan) (nres : Nat) : Decidable (PlanWF p nres) := by
  unfold PlanWF
  infer_instance

/-- Two tasks do not conflict: neither writes anything the other one
reads or writes. -/
def NoConflict (p : Plan) (t1 t2 : Task) : Prop :=
  (∀ r ∈ writes_for_task p t1,
      r ∉ reads_for_task p t2 ∧ r ∉ writes_for_task p t2) ∧
    ∀ r ∈ writes_for_task p t2,
      r ∉ reads_for_task p t1 ∧ r ∉ writes_for_task p t1

theorem noConflict_symm (p : Plan) {t1 t2 : Task} (h : NoConflict p t1 t2) :
    NoConflict p t2 t1 := ⟨h.2, h.1⟩

/-- The running-state invariant of a dispatch, tying the borrow ledger
to the multiset of inflight tasks: every shared count is the number of
occurrences of the resource among inflight read lists, the write bit
set is the union of the inflight write lists, inflight tasks are
pairwise non-conflicting and wellformed, the running count is the total
size of the inflight tasks, and queue plus inflight is a sub-multiset
of the starting queue. -/
structure Inv (p : Plan) (nres : Nat) (s : SchedState) : Prop where
  rh_len : s.reads_held.length = nres
  rh_spec : ∀ r, s.reads_held.getD r 0 =
    ((s.inflight.map (reads_for_task p)).flatten).count r
  wh_spec : ∀ r, r ∈ s.writes_held ↔
    r ∈ (s.inflight.map (writes_for_task p)).flatten
  compat : s.inflight.Pairwise (NoConflict p)
  inflight_wf : ∀ t ∈ s.inflight, TaskWF p nres t
  queue_wf : ∀ t ∈ s.task_queue, TaskWF p nres t
  count_spec : s.runnning_systems_count = (s.inflight.map (task_size p)).sum
  sub_start : (↑(s.task_queue ++ s.inflight) : Multiset Task) ≤
    ↑(create_task_queue p.stages)

/-- The invariant only depends on the fields it mentions. -/
theorem inv_of_fields (p : Plan) (nres : Nat) (s1 s2 : SchedState)
    (hinv : Inv p nres s1)
    (h1 : s2.task_queue = s1.task_queue)
    (h2 : s2.writes_held = s1.writes_held)
    (h3 : s2.reads_held = s1.reads_held)
    (h4 : s2.runnning_systems_count = s1.runnning_systems_count)
    (h5 : s2.inflight = s1.inflight) : Inv p nres s2 := by
  constructor
  · rw [h3]; exact hinv.rh_len
  · rw [h3, h5]; exact hinv.rh_spec
  · rw [h2, h5]; exact hinv.wh_spec
  · rw [h5]; exact hinv.compat
  · rw [h5]; exact hinv.inflight_wf
  · rw [h1]; exact hinv.queue_wf
  · rw [h4, h5]; exact hinv.count_spec
  · rw [h1, h5]; exact hinv.sub_start

/-- Acquisition preserves the invariant: if the task at the head of the
queue passes both conflict checks, moving it from the queue into the
inflight set while updating the ledger keeps every clause of `Inv`. -/
theorem acquire_inv (p : Plan) (nres : Nat) (s : SchedState) (t : Task)
    (run2 : Finset Nat)
    (hinv : Inv p nres { s with task_queue := t :: s.task_queue })
    (hok1 : ∀ r ∈ reads_for_task p t, r ∉ s.writes_held)
    (hok2 : ∀ r ∈ writes_for_task p t, r ∉ s.writes_held)
    (hok3 : ∀ r ∈ writes_for_task p t, s.reads_held.getD r 0 = 0) :
    Inv p nres { s with
      reads_held := (reads_for_task p t).foldl incAt s.reads_held,
      writes_held := (writes_for_task p t).foldl
        (fun x w => insert w x) s.writes_held,
      running_systems := run2,
      inflight := s.inflight ++ [t],
      runnning_systems_count := s.runnning_systems_count + task_size p t } := by
  have ht : TaskWF p nres t := hinv.queue_wf t (List.mem_cons_self t _)
  constructor
  · rw [length_foldl_incAt]
    exact hinv.rh_len
  · intro r
    have hbound : ∀ x ∈ reads_for_task p t, x < s.reads_held.length := by
      intro x hx
      have h1 : x < nres := ht.1 x hx
      have hl : s.reads_held.length = nres := hinv.rh_len
      omega
    have hspec : s.reads_held.getD r 0 =
        ((s.inflight.map (reads_for_task p)).flatten).count r :=
      hinv.rh_spec r
    rw [getD_foldl_incAt _ _ hbound r, hspec, List.map_append,
      List.flatten_append, List.count_append]
    simp
  · intro r
    rw [mem_foldl_insert, List.map_append, List.flatten_append,
      List.mem_append]
    have hws : r ∈ s.writes_held ↔
        r ∈ (s.inflight.map (writes_for_task p)).flatten :=
      hinv.wh_spec r
    rw [hws]
    simp
  · rw [List.pairwise_append]
    refine ⟨hinv.compat, List.pairwise_singleton _ _, ?_⟩
    intro a ha b hb
    rw [List.mem_singleton] at hb
    subst hb
    constructor
    · intro r hr
      have hws : r ∈ s.writes_held ↔
          r ∈ (s.inflight.map (writes_for_task p)).flatten :=
        hinv.wh_spec r
      have hwh : r ∈ s.writes_held := hws.mpr (List.mem_flatten.mpr
        ⟨writes_for_task p a, List.mem_map.mpr ⟨a, ha, rfl⟩, hr⟩)
      exact ⟨fun hc => hok1 r hc hwh, fun hc => hok2 r hc hwh⟩
    · intro r hr
      constructor
      · intro hc
        have hpos : 0 < ((s.inflight.map (reads_for_task p)).flatten).count r :=
          List.count_pos_iff.mpr (List.mem_flatten.mpr
            ⟨reads_for_task p a, List.mem_map.mpr ⟨a, ha, rfl⟩, hc⟩)
        have hspec : s.reads_held.getD r 0 =
            ((s.inflight.map (reads_for_task p)).flatten).count r :=
          hinv.rh_spec r
        have hz := hok3 r hr
        omega
      · intro hc
        have hws : r ∈ s.writes_held ↔
            r ∈ (s.inflight.map (writes_for_task p)).flatten :=
          hinv.wh_spec r
        have hwh : r ∈ s.writes_held := hws.mpr (List.mem_flatten.mpr
          ⟨writes_for_task p a, List.mem_map.mpr ⟨a, ha, rfl⟩, hc⟩)
        exact hok2 r hr hwh
  · intro u hu
    rcases List.mem_append.mp hu with hu | hu
    · exact hinv.inflight_wf u hu
    · rw [List.mem_singleton] at hu
      subst hu
      exact ht
  · intro u hu
    exact hinv.queue_wf u (List.mem_cons_of_mem t hu)
  · have hcs : s.runnning_systems_count =
        (s.inflight.map (task_size p)).sum := hinv.count_spec
    rw [List.map_append, List.sum_append, hcs]
    simp
  · have hperm : (s.task_queue ++ (s.inflight ++ [t])).Perm
        ((t :: s.task_queue) ++ s.inflight) := by
      rw [← List.append_assoc]
      exact List.perm_append_comm
    have hco : (↑(s.task_queue ++ (s.inflight ++ [t])) : Multiset Task) =
        ↑((t :: s.task_queue) ++ s.inflight) := Multiset.coe_eq_coe.mpr hperm
    have hsub : (↑((t :: s.task_queue) ++ s.inflight) : Multiset Task) ≤
        ↑(create_task_queue p.stages) := hinv.sub_start
    simp only
    rw [hco]
    exact hsub


/-- Completion of an inflight task preserves the invariant: releasing
its resources and erasing it from the inflight list keeps every clause
of `Inv`, and its size is covered by the running count. -/
theorem complete_inv (p : Plan) (nres : Nat) (s : SchedState) (tc : Task)
    (run2 : Finset Nat) (hinv : Inv p nres s) (hmem : tc ∈ s.inflight) :
    Inv p nres { s with
      reads_held := (reads_for_task p tc).foldl decAt s.reads_held,
      writes_held := (writes_for_task p tc).foldl
        (fun x w => x.erase w) s.writes_held,
      running_systems := run2,
      inflight := s.inflight.erase tc,
      runnning_systems_count :=
        s.runnning_systems_count - task_size p tc } ∧
      task_size p tc ≤ s.runnning_systems_count := by
  have hperm : s.inflight.Perm (tc :: s.inflight.erase tc) :=
    List.perm_cons_erase hmem
  have hcount : ∀ r, ((s.inflight.map (reads_for_task p)).flatten).count r =
      (reads_for_task p tc).count r +
        (((s.inflight.erase tc).map (reads_for_task p)).flatten).count r := by
    intro r
    rw [((hperm.map (reads_for_task p)).flatten).count_eq r, List.map_cons,
      List.flatten_cons, List.count_append]
  have hwmem : ∀ r, r ∈ (s.inflight.map (writes_for_task p)).flatten ↔
      r ∈ writes_for_task p tc ∨
        r ∈ ((s.inflight.erase tc).map (writes_for_task p)).flatten := by
    intro r
    rw [((hperm.map (writes_for_task p)).flatten).mem_iff, List.map_cons,
      List.flatten_cons, List.mem_append]
  have hpw : (∀ u ∈ s.inflight.erase tc, NoConflict p tc u) ∧
      (s.inflight.erase tc).Pairwise (NoConflict p) :=
    List.pairwise_cons.mp
      ((List.Perm.pairwise_iff (fun h => noConflict_symm p h) hperm).mp
        hinv.compat)
  have hsum : (s.inflight.map (task_size p)).sum =
      task_size p tc + ((s.inflight.erase tc).map (task_size p)).sum := by
    rw [(hperm.map (task_size p)).sum_eq, List.map_cons, List.sum_cons]
  have hsz : task_size p tc ≤ s.runnning_systems_count := by
    have hcs : s.runnning_systems_count =
        (s.inflight.map (task_size p)).sum := hinv.count_spec
    omega
  refine ⟨?_, hsz⟩
  constructor
  · rw [length_foldl_decAt]
    exact hinv.rh_len
  · intro r
    have hspec : s.reads_held.getD r 0 =
        ((s.inflight.map (reads_for_task p)).flatten).count r :=
      hinv.rh_spec r
    have hc := hcount r
    rw [getD_foldl_decAt]
    simp only
    omega
  · intro r
    have hws : r ∈ s.writes_held ↔
        r ∈ (s.inflight.map (writes_for_task p)).flatten :=
      hinv.wh_spec r
    rw [mem_foldl_erase]
    simp only
    constructor
    · intro ⟨hin, hnot⟩
      rcases (hwmem r).mp (hws.mp hin) with h | h
      · exact absurd h hnot
      · exact h
    · intro hin
      obtain ⟨l, hl, hrl⟩ := List.mem_flatten.mp hin
      obtain ⟨u, hu, hul⟩ := List.mem_map.mp hl
      refine ⟨hws.mpr ((hwmem r).mpr (Or.inr hin)), fun hwtc => ?_⟩
      exact ((hpw.1 u hu).2 r (hul ▸ hrl)).2 hwtc
  · exact hpw.2
  · intro u hu
    exact hinv.inflight_wf u ((List.erase_sublist tc s.inflight).subset hu)
  · intro u hu
    exact hinv.queue_wf u hu
  · have hcs : s.runnning_systems_count =
        (s.inflight.map (task_size p)).sum := hinv.count_spec
    simp only
    omega
  · have hsub : (↑(s.task_queue ++ s.inflight) : Multiset Task) ≤
        ↑(create_task_queue p.stages) := hinv.sub_start
    have hsl : (s.task_queue ++ s.inflight.erase tc).Sublist
        (s.task_queue ++ s.inflight) :=
      (List.erase_sublist tc s.inflight).append_left s.task_queue
    exact le_trans (Multiset.coe_le.mpr hsl.subperm) hsub

/-- Processing one completion message preserves the invariant once the
running count is decremented as done at both call sites. -/
theorem wait_for_completion_inv (p : Plan) (nres : Nat) (s : SchedState)
    (m : TaskMessage) (sw : SchedState) (n : Nat)
    (hinv : Inv p nres s)
    (hw : wait_for_completion p s m = some (sw, n)) :
    Inv p nres { sw with runnning_systems_count :=
        sw.runnning_systems_count - n } ∧
      n ≤ s.runnning_systems_count ∧
      sw.runnning_systems_count = s.runnning_systems_count ∧
      sw.task_queue = s.task_queue := by
  cases m with
  | SystemComplete id =>
    simp only [wait_for_completion] at hw
    split_ifs at hw with hmem
    · simp only [Option.some.injEq, Prod.mk.injEq] at hw
      obtain ⟨hsw, hn⟩ := hw
      subst hsw
      subst hn
      have h := complete_inv p nres s (Task.Oneshot id)
        (s.running_systems.erase id) hinv hmem
      exact ⟨h.1, h.2, rfl, rfl⟩
  | StageComplete id =>
    simp only [wait_for_completion] at hw
    split_ifs at hw with hmem
    · simp only [Option.some.injEq, Prod.mk.injEq] at hw
      obtain ⟨hsw, hn⟩ := hw
      subst hsw
      subst hn
      have h := complete_inv p nres s (Task.Stage id)
        ((p.stages.getD id []).foldl (fun rs i => rs.erase i)
          s.running_systems) hinv hmem
      exact ⟨h.1, h.2, rfl, rfl⟩

/-- One `run_task` step preserves the invariant.  The state `s` is the
scheduler after the task `t` was popped; the invariant hypothesis is
phrased on the state with `t` still at the head of the queue. -/
theorem run_task_inv (p : Plan) (nres : Nat) (s : SchedState) (t : Task)
    (oracle : List TaskMessage) (s2 : SchedState) (o2 : List TaskMessage)
    (hinv : Inv p nres { s with task_queue := t :: s.task_queue })
    (hrun : run_task p s t oracle = some (s2, o2)) : Inv p nres s2 := by
  unfold run_task at hrun
  cases hb : (try_obtain_resources (reads_for_task p t) (writes_for_task p t)
      s.reads_held s.writes_held).1 with
  | true =>
    simp only [hb, if_true] at hrun
    obtain ⟨h1, h2⟩ := try_obtain_ok_state _ _ _ _ hb
    obtain ⟨hc1, hc2, hc3⟩ := (try_obtain_ok_iff' _ _ _ _).mp hb
    simp only [Option.some.injEq, Prod.mk.injEq] at hrun
    obtain ⟨hX, ho⟩ := hrun
    subst hX
    have hTinv := acquire_inv p nres s t
      (dispatch_task p { s with
        reads_held := (try_obtain_resources (reads_for_task p t)
          (writes_for_task p t) s.reads_held s.writes_held).2.1,
        writes_held := (try_obtain_resources (reads_for_task p t)
          (writes_for_task p t) s.reads_held s.writes_held).2.2 }
        t).1.running_systems hinv hc1 hc2 hc3
    refine inv_of_fields p nres _ _ hTinv ?_ ?_ ?_ ?_ ?_
    · cases t <;> rfl
    · cases t <;> exact h2
    · cases t <;> exact h1
    · cases t <;> rfl
    · cases t <;> rfl
  | false =>
    simp only [hb, Bool.false_eq_true, if_false] at hrun
    cases oracle with
    | nil => simp at hrun
    | cons m o =>
      simp only [] at hrun
      cases hw : wait_for_completion p
          { s with task_queue := t :: s.task_queue } m with
      | none =>
        rw [hw] at hrun
        simp at hrun
      | some pair =>
        obtain ⟨sw, num⟩ := pair
        rw [hw] at hrun
        simp only [Option.some.injEq, Prod.mk.injEq] at hrun
        obtain ⟨hX, ho⟩ := hrun
        subst hX
        exact (wait_for_completion_inv p nres _ m sw num hinv hw).1


/-- The first loop of `execute` preserves the invariant and can return
only with an empty queue. -/
theorem drain_inv (p : Plan) (nres : Nat) : ∀ (fuel : Nat) (s : SchedState)
    (oracle : List TaskMessage) (s2 : SchedState) (o2 : List TaskMessage),
    Inv p nres s → drain fuel p s oracle = some (s2, o2) →
    Inv p nres s2 ∧ s2.task_queue = [] := by
  intro fuel
  induction fuel with
  | zero =>
    intro s oracle s2 o2 _ h
    simp [drain] at h
  | succ fuel ih =>
    intro s oracle s2 o2 hinv h
    rw [drain] at h
    cases hq : s.task_queue with
    | nil =>
      rw [hq] at h
      simp only [Option.some.injEq, Prod.mk.injEq] at h
      obtain ⟨hs, _⟩ := h
      subst hs
      exact ⟨hinv, hq⟩
    | cons t q =>
      rw [hq] at h
      simp only [] at h
      cases hr : run_task p { s with task_queue := q } t oracle with
      | none =>
        rw [hr] at h
        simp at h
      | some pair =>
        obtain ⟨s1, o1⟩ := pair
        rw [hr] at h
        have hinv2 : Inv p nres { s with task_queue := t :: q } := by
          rw [← hq]
          exact hinv
        have hinv3 := run_task_inv p nres { s with task_queue := q } t
          oracle s1 o1 hinv2 hr
        exact ih s1 o1 s2 o2 hinv3 h

/-- The second loop of `execute` preserves the invariant, returns only
when the running count is zero, and keeps the queue empty. -/
theorem join_inv (p : Plan) (nres : Nat) : ∀ (fuel : Nat) (s : SchedState)
    (oracle : List TaskMessage) (s2 : SchedState),
    Inv p nres s → join fuel p s oracle = some s2 →
    Inv p nres s2 ∧ s2.runnning_systems_count = 0 ∧
      (s.task_queue = [] → s2.task_queue = []) := by
  intro fuel
  induction fuel with
  | zero =>
    intro s oracle s2 _ h
    simp [join] at h
  | succ fuel ih =>
    intro s oracle s2 hinv h
    rw [join.eq_def] at h
    simp only [] at h
    by_cases hc : s.runnning_systems_count = 0
    · rw [if_pos hc] at h
      simp only [Option.some.injEq] at h
      subst h
      exact ⟨hinv, hc, fun hq => hq⟩
    · rw [if_neg hc] at h
      cases oracle with
      | nil => simp at h
      | cons m o =>
        simp only [] at h
        cases hw : wait_for_completion p s m with
        | none =>
          rw [hw] at h
          simp at h
        | some pair =>
          obtain ⟨sw, num⟩ := pair
          rw [hw] at h
          simp only [] at h
          have hwi := wait_for_completion_inv p nres s m sw num hinv hw
          cases hd : drain fuel p { sw with runnning_systems_count :=
              sw.runnning_systems_count - num } o with
          | none =>
            rw [hd] at h
            simp at h
          | some pair2 =>
            obtain ⟨s3, o3⟩ := pair2
            rw [hd] at h
            obtain ⟨hinv3, hq3⟩ := drain_inv p nres fuel _ o s3 o3 hwi.1 hd
            obtain ⟨hi, hc0, hq⟩ := ih s3 o3 s2 hinv3 h
            exact ⟨hi, hc0, fun _ => hq hq3⟩


theorem getD_replicate_zero (n r : Nat) :
    (List.replicate n 0).getD r 0 = 0 := by
  rw [List.getD_eq_getElem?_getD]
  rcases lt_or_ge r n with h | h
  · rw [List.getElem?_eq_getElem (by simpa using h)]
    simp
  · rw [List.getElem?_eq_none (by simpa using h)]
    rfl

/-- The invariant holds at the start of a dispatch: fresh ledger, no
inflight tasks, queue reset to the starting queue. -/
theorem inv_init (p : Plan) (nres : Nat)
    (hq : ∀ t ∈ create_task_queue p.stages, TaskWF p nres t) :
    Inv p nres { initState nres with
      task_queue := create_task_queue p.stages } := by
  constructor
  · simp [initState]
  · intro r
    simp only [initState]
    rw [getD_replicate_zero]
    simp
  · intro r
    simp [initState]
  · simp [initState]
  · intro t ht
    simp [initState] at ht
  · intro t ht
    exact hq t ht
  · simp [initState]
  · simp [initState]

/-- When the running count has returned to zero, the invariant forces
the ledger to be empty (any task still unprocessed has zero systems and
hence, by plan wellformedness, empty aggregates). -/
theorem inv_final (p : Plan) (nres : Nat) (s : SchedState)
    (hinv : Inv p nres s) (hc : s.runnning_systems_count = 0)
    (hwf2 : ∀ i < p.stages.length, p.stages.getD i [] = [] →
      p.stage_reads.getD i [] = [] ∧ p.stage_writes.getD i [] = []) :
    (∀ r, s.reads_held.getD r 0 = 0) ∧ s.writes_held = ∅ := by
  have hall : ∀ t ∈ s.inflight,
      reads_for_task p t = [] ∧ writes_for_task p t = [] := by
    intro t ht
    have hsz : task_size p t = 0 := by
      have hcs : s.runnning_systems_count =
          (s.inflight.map (task_size p)).sum := hinv.count_spec
      rw [hc] at hcs
      exact (List.sum_eq_zero_iff.mp hcs.symm) (task_size p t)
        (List.mem_map.mpr ⟨t, ht, rfl⟩)
    cases t with
    | Oneshot id => simp [task_size] at hsz
    | Stage id =>
      have hempty : p.stages.getD id [] = [] := by
        unfold task_size at hsz
        exact List.length_eq_zero.mp hsz
      have hmem : Task.Stage id ∈ create_task_queue p.stages := by
        have h1 : Task.Stage id ∈ (↑(s.task_queue ++ s.inflight) :
            Multiset Task) :=
          Multiset.mem_coe.mpr (List.mem_append.mpr (Or.inr ht))
        exact Multiset.mem_coe.mp (Multiset.mem_of_le hinv.sub_start h1)
      have hid : id < p.stages.length := by
        unfold create_task_queue at hmem
        obtain ⟨i, hi, he⟩ := List.mem_map.mp hmem
        injection he with h3
        subst h3
        exact List.mem_range.mp hi
      obtain ⟨h1, h2⟩ := hwf2 id hid hempty
      exact ⟨h1, h2⟩
  constructor
  · intro r
    rw [hinv.rh_spec r, List.count_eq_zero]
    intro hmem
    obtain ⟨l, hl, hrl⟩ := List.mem_flatten.mp hmem
    obtain ⟨t, ht, htl⟩ := List.mem_map.mp hl
    rw [← htl, (hall t ht).1] at hrl
    cases hrl
  · rw [Finset.eq_empty_iff_forall_not_mem]
    intro r hr
    rw [hinv.wh_spec r] at hr
    obtain ⟨l, hl, hrl⟩ := List.mem_flatten.mp hr
    obtain ⟨t, ht, htl⟩ := List.mem_map.mp hl
    rw [← htl, (hall t ht).2] at hrl
    cases hrl

/-! ### Claim C3 -/

/-- C3: for every wellformed plan, when `execute` returns, the borrow
ledger is empty (no write bit set and every shared count zero), the
running-systems count is zero, and the task queue is empty. -/
theorem C3_execute_postcondition (fuel : Nat) (p : Plan) (nres : Nat)
    (oracle : List TaskMessage) (s2 : SchedState)
    (hwf : PlanWF p nres)
    (hex : execute fuel p (initState nres) oracle = some s2) :
    (∀ r, s2.reads_held.getD r 0 = 0) ∧ s2.writes_held = ∅ ∧
      s2.runnning_systems_count = 0 ∧ s2.task_queue = [] := by
  unfold execute at hex
  have hq0 : (initState nres).task_queue = ([] : List Task) := rfl
  rw [if_pos hq0] at hex
  cases hd : drain fuel p { initState nres with
      task_queue := create_task_queue p.stages } oracle with
  | none =>
    rw [hd] at hex
    simp at hex
  | some pair =>
    obtain ⟨s1, o1⟩ := pair
    rw [hd] at hex
    simp only [] at hex
    have hinv0 := inv_init p nres hwf.1
    obtain ⟨hinv1, hq1⟩ := drain_inv p nres fuel _ oracle s1 o1 hinv0 hd
    obtain ⟨hinv2, hc2, hq2⟩ := join_inv p nres fuel s1 o1 s2 hinv1 hex
    obtain ⟨hrh, hwh⟩ := inv_final p nres s2 hinv2 hc2 hwf.2
    exact ⟨hrh, hwh, hc2, hq2 hq1⟩

/-- Concrete one-stage plan: a single system reading resource 0. -/
def c3p : Plan :=
  { stages := [[0]], system_reads := [[0]], system_writes := [[]],
    stage_reads := [[0]], stage_writes := [[]] }

/-- The state a full dispatch of `c3p` returns. -/
def c3final : SchedState :=
  (execute 3 c3p (initState 1) [TaskMessage.StageComplete 0]).getD default

/-- Witness for C3 at the one-system plan `c3p`. -/
theorem C3_execute_postcondition_witness :
    PlanWF c3p 1 ∧ c3final.reads_held.getD 0 0 = 0 ∧
      c3final.writes_held = ∅ ∧ c3final.runnning_systems_count = 0 ∧
      c3final.task_queue = [] := by
  have h := C3_execute_postcondition 3 c3p 1 [TaskMessage.StageComplete 0]
    c3final (by decide) (by decide)
  exact ⟨by decide, h.1 0, h.2.1, h.2.2.1, h.2.2.2⟩


/-! ### Claim C4 -/

/-- C4: processing a `StageComplete(id)` message decrements the shared
count of each id in the stage aggregate read list once per occurrence,
removes each aggregate write from the write bit set, clears the
`running_systems` bit of every system of the stage, and returns the
number of systems in the stage — exactly the amount by which both call
sites then decrement `runnning_systems_count`. -/
theorem C4_stage_complete_processing (p : Plan) (s : SchedState) (id : Nat)
    (sw : SchedState) (n : Nat)
    (hge : ∀ r ∈ p.stage_reads.getD id [],
      (p.stage_reads.getD id []).count r ≤ s.reads_held.getD r 0)
    (hn : (p.stages.getD id []).length ≤ s.runnning_systems_count)
    (hw : wait_for_completion p s (.StageComplete id) = some (sw, n)) :
    n = (p.stages.getD id []).length ∧
      (∀ r, sw.reads_held.getD r 0 + (p.stage_reads.getD id []).count r =
        s.reads_held.getD r 0) ∧
      (∀ r, r ∈ sw.writes_held ↔
        r ∈ s.writes_held ∧ r ∉ p.stage_writes.getD id []) ∧
      (∀ i, i ∈ sw.running_systems ↔
        i ∈ s.running_systems ∧ i ∉ p.stages.getD id []) ∧
      sw.runnning_systems_count = s.runnning_systems_count ∧
      s.runnning_systems_count - n + n = s.runnning_systems_count := by
  simp only [wait_for_completion] at hw
  split_ifs at hw with hmem
  simp only [Option.some.injEq, Prod.mk.injEq] at hw
  obtain ⟨hsw, hne⟩ := hw
  subst hsw
  subst hne
  refine ⟨rfl, ?_, ?_, ?_, rfl, by omega⟩
  · intro r
    simp only [release_resources_for_stage]
    rw [getD_foldl_decAt]
    by_cases hmem2 : r ∈ p.stage_reads.getD id []
    · have := hge r hmem2
      omega
    · rw [List.count_eq_zero_of_not_mem hmem2]
      omega
  · intro r
    simp only [release_resources_for_stage]
    exact mem_foldl_erase _ _ r
  · intro i
    exact mem_foldl_erase _ _ i

/-- One-stage plan and mid-dispatch state for the C4 witness. -/
def c4p : Plan :=
  { stages := [[0]], system_reads := [[0]], system_writes := [[]],
    stage_reads := [[0]], stage_writes := [[]] }

def c4s : SchedState :=
  { task_queue := [], writes_held := ∅, reads_held := [1],
    runnning_systems_count := 1, running_systems := {0},
    inflight := [Task.Stage 0] }

def c4sw : SchedState :=
  ((wait_for_completion c4p c4s (TaskMessage.StageComplete 0)).getD
    (default, 0)).1

/-- Witness for C4: completing stage 0 of `c4p` returns its size and
restores the shared count of resource 0. -/
theorem C4_stage_complete_processing_witness :
    1 = (c4p.stages.getD 0 []).length ∧
      c4sw.reads_held.getD 0 0 + (c4p.stage_reads.getD 0 []).count 0 =
        c4s.reads_held.getD 0 0 := by
  have h := C4_stage_complete_processing c4p c4s 0 c4sw 1 (by decide)
    (by decide) (by decide)
  exact ⟨h.1, h.2.1 0⟩

/-! ### Claim C5 -/

/-- C5: when the task popped from the queue head fails to acquire its
resources, `run_task` pushes that same task back onto the queue front,
blocks for exactly one completion message, processes it, and returns so
the drain loop retries from the same queue head; no later queued task
is dispatched (the task queue is preserved with the conflicting task at
the front and the inflight list only loses the completed task), and
with no message available the engine stays blocked. -/
theorem C5_conflict_retries_from_head (p : Plan) (s : SchedState) (t : Task)
    (m : TaskMessage) (o : List TaskMessage) (sw : SchedState) (n : Nat)
    (hconf : (try_obtain_resources (reads_for_task p t) (writes_for_task p t)
      s.reads_held s.writes_held).1 = false)
    (hw : wait_for_completion p { s with task_queue := t :: s.task_queue } m
      = some (sw, n)) :
    run_task p s t (m :: o) = some ({ sw with runnning_systems_count :=
        sw.runnning_systems_count - n }, o) ∧
      sw.task_queue = t :: s.task_queue ∧
      (∃ tc, tc ∈ s.inflight ∧ sw.inflight = s.inflight.erase tc) ∧
      run_task p s t [] = none := by
  refine ⟨?_, ?_, ?_, ?_⟩
  · unfold run_task
    simp only [hconf, Bool.false_eq_true, if_false]
    rw [hw]
  · cases m with
    | SystemComplete id =>
      simp only [wait_for_completion] at hw
      split_ifs at hw with hmem
      simp only [Option.some.injEq, Prod.mk.injEq] at hw
      obtain ⟨hsw, _⟩ := hw
      rw [← hsw]
    | StageComplete id =>
      simp only [wait_for_completion] at hw
      split_ifs at hw with hmem
      simp only [Option.some.injEq, Prod.mk.injEq] at hw
      obtain ⟨hsw, _⟩ := hw
      rw [← hsw]
  · cases m with
    | SystemComplete id =>
      simp only [wait_for_completion] at hw
      split_ifs at hw with hmem
      simp only [Option.some.injEq, Prod.mk.injEq] at hw
      obtain ⟨hsw, _⟩ := hw
      exact ⟨Task.Oneshot id, hmem, by rw [← hsw]⟩
    | StageComplete id =>
      simp only [wait_for_completion] at hw
      split_ifs at hw with hmem
      simp only [Option.some.injEq, Prod.mk.injEq] at hw
      obtain ⟨hsw, _⟩ := hw
      exact ⟨Task.Stage id, hmem, by rw [← hsw]⟩
  · unfold run_task
    simp only [hconf, Bool.false_eq_true, if_false]

/-- Two-stage plan with a write conflict on resource 0, and the state
after stage 0 was dispatched, for the C5 witness. -/
def c5p : Plan :=
  { stages := [[0], [1]], system_reads := [[], []],
    system_writes := [[0], [0]], stage_reads := [[], []],
    stage_writes := [[0], [0]] }

def c5s : SchedState :=
  { task_queue := [], writes_held := {0}, reads_held := [0],
    runnning_systems_count := 1, running_systems := {0},
    inflight := [Task.Stage 0] }

def c5sw : SchedState :=
  ((wait_for_completion c5p { c5s with task_queue := [Task.Stage 1] }
    (TaskMessage.StageComplete 0)).getD (default, 0)).1

/-- Witness for C5: stage 1 conflicts on the write bit of resource 0;
the engine pushes it back, processes the StageComplete(0) message, and
leaves stage 1 at the queue head. -/
theorem C5_conflict_retries_from_head_witness :
    run_task c5p c5s (Task.Stage 1) [TaskMessage.StageComplete 0] =
        some ({ c5sw with runnning_systems_count :=
          c5sw.runnning_systems_count - 1 }, []) ∧
      c5sw.task_queue = Task.Stage 1 :: c5s.task_queue := by
  have h := C5_conflict_retries_from_head c5p c5s (Task.Stage 1)
    (TaskMessage.StageComplete 0) [] c5sw 1 (by decide) (by decide)
  exact ⟨h.1, h.2.1⟩


/-! ### Claim C7 -/

/-- One-empty-stage plan and a dirty-ledger state for C7. -/
def c7p : Plan :=
  { stages := [[]], system_reads := [], system_writes := [],
    stage_reads := [[]], stage_writes := [[]] }

def c7s : SchedState :=
  { task_queue := [], writes_held := ∅, reads_held := [7],
    runnning_systems_count := 0, running_systems := ∅, inflight := [] }

/-- C7 counterexample: the claim asserts that execute checks the ledger
is empty and fails the assertion otherwise; in fact the only assertion
in the source is `assert!(self.task_queue.is_empty())`, and a dispatch
starting with a dirty ledger (here reads_held[0] = 7) proceeds and
returns normally instead of failing. -/
theorem C7_counterexample :
    ¬ ∀ (fuel : Nat) (p : Plan) (s : SchedState)
      (oracle : List TaskMessage),
      (∃ r, s.reads_held.getD r 0 ≠ 0) →
      execute fuel p s oracle = none := by
  intro h
  have h2 := h 2 c7p c7s [] ⟨0, by decide⟩
  revert h2
  decide

/-- C7 amended: at the start of execute the engine asserts only that
the task queue is empty and resets it to the initial queue (one
Stage(i) per stage, in plan order) before running the two loops; a
dispatch beginning with a nonempty queue fails the assertion (modelled
as `none`), while ledger emptiness and the running count are not
asserted — a dispatch from a dirty ledger with an empty queue
proceeds. -/
theorem C7_execute_asserts_only_queue (fuel : Nat) (p : Plan)
    (s : SchedState) (oracle : List TaskMessage) :
    (s.task_queue ≠ [] → execute fuel p s oracle = none) ∧
      (s.task_queue = [] → execute fuel p s oracle =
        match drain fuel p
            { s with task_queue := create_task_queue p.stages } oracle with
        | none => none
        | some (s1, o1) => join fuel p s1 o1) ∧
      execute 2 c7p c7s [] ≠ none := by
  refine ⟨fun h => ?_, fun h => ?_, by decide⟩
  · unfold execute
    rw [if_neg h]
  · unfold execute
    rw [if_pos h]

/-- Witness for the amended C7: a dispatch begun with a nonempty task
queue fails the assertion. -/
theorem C7_execute_asserts_only_queue_witness :
    ({ c7s with task_queue := [Task.Stage 0] } : SchedState).task_queue ≠
        [] ∧
      execute 1 c7p { c7s with task_queue := [Task.Stage 0] } [] = none :=
  ⟨by decide,
    (C7_execute_asserts_only_queue 1 c7p
      { c7s with task_queue := [Task.Stage 0] } []).1 (by decide)⟩

/-! ### Claim C8 -/

/-- A plan putting 256 systems that all read resource 0 into a single
stage: exactly what the greedy planner produces for 256 registered
readers (one stage of N parallel readers). -/
def c8p : Plan :=
  { stages := [List.range 256],
    system_reads := List.replicate 256 [0],
    system_writes := List.replicate 256 [],
    stage_reads := [List.replicate 256 0],
    stage_writes := [[]] }

/-- The state after the drain loop dispatched the single stage of
`c8p`. -/
def c8mid : SchedState :=
  ((drain 2 c8p { initState 1 with
    task_queue := create_task_queue c8p.stages } []).getD (default, [])).1

set_option maxRecDepth 100000 in
/-- C8 counterexample: the shared-count element type is `u8` and the
engine increments it with an unchecked `+= 1`; dispatching the
wellformed plan `c8p` drives reads_held[0] to 256 > 255 = u8::MAX
during a dispatch, so the element type is not wide enough for every
plan and the claimed absence of overflow fails. -/
theorem C8_counterexample :
    ¬ ∀ (fuel : Nat) (p : Plan) (nres : Nat) (oracle : List TaskMessage)
      (s2 : SchedState) (o2 : List TaskMessage), PlanWF p nres →
      drain fuel p { initState nres with
        task_queue := create_task_queue p.stages } oracle = some (s2, o2) →
      ∀ r, s2.reads_held.getD r 0 ≤ 255 := by
  intro h
  have h2 := h 2 c8p 1 [] c8mid [] (by decide) (by decide) 0
  revert h2
  decide

/-- Total number of read occurrences of resource `r` across the whole
starting queue of a plan — the worst-case number of simultaneous
sharers the plan permits. -/
def planReadLoad (p : Plan) (r : Nat) : Nat :=
  ((create_task_queue p.stages).map
    (fun t => (reads_for_task p t).count r)).sum

theorem sum_map_le_of_coe_le {l1 l2 : List Task} (f : Task → Nat)
    (h : (↑l1 : Multiset Task) ≤ ↑l2) :
    (l1.map f).sum ≤ (l2.map f).sum := by
  obtain ⟨u, hu⟩ := Multiset.le_iff_exists_add.mp h
  have h2 : (Multiset.map f (↑l2 : Multiset Task)).sum =
      (Multiset.map f (↑l1 : Multiset Task)).sum +
        (Multiset.map f u).sum := by
    rw [hu, Multiset.map_add, Multiset.sum_add]
  rw [Multiset.map_coe, Multiset.map_coe, Multiset.sum_coe,
    Multiset.sum_coe] at h2
  omega

theorem inflight_le_start (p : Plan) (nres : Nat) (s : SchedState)
    (hinv : Inv p nres s) :
    (↑s.inflight : Multiset Task) ≤ ↑(create_task_queue p.stages) :=
  le_trans
    (Multiset.coe_le.mpr
      (List.sublist_append_right s.task_queue s.inflight).subperm)
    hinv.sub_start

theorem getD_mem_or_nil (l : List (List Nat)) (i : Nat) :
    l.getD i [] = [] ∨ l.getD i [] ∈ l := by
  rcases lt_or_ge i l.length with h | h
  · right
    rw [List.getD_eq_getElem?_getD, List.getElem?_eq_getElem h]
    exact List.getElem_mem h
  · left
    rw [List.getD_eq_getElem?_getD, List.getElem?_eq_none h]
    rfl

/-- C8 amended: with the u8 counters of the source, overflow is absent
precisely when the plan worst case fits the type: at every state
satisfying the dispatch invariant, each shared count is bounded by the
plan total of read occurrences of that resource, so when that total is
at most 255 = u8::MAX for every resource, no count ever exceeds
u8::MAX.  (The unamended claim fails: see the 256-reader
counterexample.) -/
theorem C8_no_overflow_when_plan_fits_u8 (p : Plan) (nres : Nat)
    (s : SchedState) (hinv : Inv p nres s)
    (hbound : ∀ r ∈ p.stage_reads.flatten, planReadLoad p r ≤ 255) :
    ∀ r, s.reads_held.getD r 0 ≤ 255 := by
  intro r
  have hspec : s.reads_held.getD r 0 =
      ((s.inflight.map (reads_for_task p)).flatten).count r :=
    hinv.rh_spec r
  rw [List.count_flatten, List.map_map] at hspec
  have hle : ((s.inflight.map
      (fun t => (reads_for_task p t).count r))).sum ≤ planReadLoad p r :=
    sum_map_le_of_coe_le _ (inflight_le_start p nres s hinv)
  have hcomp : (s.inflight.map (List.count r ∘ reads_for_task p)).sum =
      (s.inflight.map (fun t => (reads_for_task p t).count r)).sum := rfl
  by_cases hmem : r ∈ p.stage_reads.flatten
  · have := hbound r hmem
    omega
  · have hz : planReadLoad p r = 0 := by
      unfold planReadLoad
      rw [List.sum_eq_zero_iff]
      intro x hx
      obtain ⟨t, ht, hxe⟩ := List.mem_map.mp hx
      unfold create_task_queue at ht
      obtain ⟨i, _, he⟩ := List.mem_map.mp ht
      subst he
      rw [← hxe]
      have hnm : r ∉ reads_for_task p (Task.Stage i) := by
        intro hcon
        rcases getD_mem_or_nil p.stage_reads i with hnil | hmem3
        · rw [show reads_for_task p (Task.Stage i) =
              p.stage_reads.getD i [] from rfl, hnil] at hcon
          cases hcon
        · exact hmem (List.mem_flatten.mpr ⟨p.stage_reads.getD i [], hmem3,
            hcon⟩)
      exact List.count_eq_zero_of_not_mem hnm
    omega

/-- Witness for the amended C8, at the freshly reset state of the
one-reader plan `c3p`, whose total read load is 1 ≤ 255. -/
theorem C8_no_overflow_when_plan_fits_u8_witness :
    (∀ r ∈ c3p.stage_reads.flatten, planReadLoad c3p r ≤ 255) ∧
      ({ initState 1 with task_queue := create_task_queue c3p.stages } :
        SchedState).reads_held.getD 0 0 ≤ 255 :=
  ⟨by decide,
    C8_no_overflow_when_plan_fits_u8 c3p 1 _
      (inv_init c3p 1 (by decide)) (by decide) 0⟩


/-! ### Claim C6 -/

/-- Modelled from the spec: the process-wide system id allocator
(struct `Mappings` of mappings.rs, which is not among the provided
sources).  Per the spec, ids are dense nonnegative integers allocated
sequentially and never recycled: `alloc` hands out the next counter
value. -/
structure Mappings where
  counter : Nat

def Mappings.alloc (m : Mappings) : Nat × Mappings :=
  (m.counter, { counter := m.counter + 1 })

/-- Translation of `CachedSystem::new` (system.rs lines 76-86): the id
is drawn from the global allocator via `SYSTEM_ID_MAPPINGS.lock()
.alloc()`, and the cached read/write lists come from the system
data. -/
structure CachedSystem where
  id : Nat
  resource_reads : List Nat
  resource_writes : List Nat

def CachedSystem.new (reads writes : List Nat) (m : Mappings) :
    CachedSystem × Mappings :=
  ({ id := m.alloc.1, resource_reads := reads, resource_writes := writes },
    m.alloc.2)

/-- Modelled from the spec: the builder (`SchedulerBuilder` of
builder.rs, not among the provided sources) registers the given
systems in registration order, constructing each through
`CachedSystem.new`. -/
def registerSystems (sys : List (List Nat × List Nat)) (m : Mappings) :
    List CachedSystem × Mappings :=
  match sys with
  | [] => ([], m)
  | (r, w) :: rest =>
    let cm := CachedSystem.new r w m
    let rest2 := registerSystems rest cm.2
    (cm.1 :: rest2.1, rest2.2)

theorem registerSystems_ids (sys : List (List Nat × List Nat)) :
    ∀ m : Mappings, ((registerSystems sys m).1.map (fun c => c.id)) =
      List.range' m.counter sys.length := by
  induction sys with
  | nil => intro m; rfl
  | cons x rest ih =>
    intro m
    obtain ⟨r, w⟩ := x
    simp only [registerSystems, List.map_cons, List.length_cons,
      List.range'_succ, List.cons.injEq]
    exact ⟨rfl, ih _⟩

/-- C6: starting from a fresh allocator, registering any sequence of
systems in order gives the i-th registered system instance the
SystemId i: the cached ids are exactly 0, 1, …, n-1 in registration
order. -/
theorem C6_system_ids_sequential (sys : List (List Nat × List Nat)) :
    ((registerSystems sys { counter := 0 }).1.map (fun c => c.id)) =
      List.range sys.length := by
  rw [registerSystems_ids sys { counter := 0 }, List.range_eq_range']

/-! ### Claim C9 -/

mutual
/-- The shape of a system-data type: a `Read<T>` handle carrying the
resource id of `T`, a `Write<T>` handle, the unit instance for `()`
(system.rs lines 154-169), or a tuple of system-data types (the
per-arity tuple instances of system.rs lines 306-405). -/
inductive DataSpec where
  | read : Nat → DataSpec
  | write : Nat → DataSpec
  | unit : DataSpec
  | tuple : DataList → DataSpec

inductive DataList where
  | nil : DataList
  | cons : DataSpec → DataList → DataList
end

def DataList.toList : DataList → List DataSpec
  | .nil => []
  | .cons d ds => d :: ds.toList

mutual
/-- `reads()`: `Read<T>` yields its one id, `Write<T>` and `()` yield
nothing, and a tuple appends the reads of its elements in element
order into an accumulator, exactly as the generated tuple code pushes
each element list into `res`. -/
def specReads : DataSpec → List Nat
  | .read r => [r]
  | .write _ => []
  | .unit => []
  | .tuple ds => specReadsList ds []

def specReadsList : DataList → List Nat → List Nat
  | .nil, acc => acc
  | .cons d ds, acc => specReadsList ds (acc ++ specReads d)
end

mutual
/-- `writes()`: dual to `specReads`. -/
def specWrites : DataSpec → List Nat
  | .read _ => []
  | .write r => [r]
  | .unit => []
  | .tuple ds => specWritesList ds []

def specWritesList : DataList → List Nat → List Nat
  | .nil, acc => acc
  | .cons d ds, acc => specWritesList ds (acc ++ specWrites d)
end

mutual
/-- A loaded system-data value: the handles hold the loaded resource
values (standing for the raw pointers of the source). -/
inductive HVal where
  | readV : Nat → HVal
  | writeV : Nat → HVal
  | unitV : HVal
  | tupV : HList → HVal

inductive HList where
  | nil : HList
  | cons : HVal → HList → HList
end

def HList.toList : HList → List HVal
  | .nil => []
  | .cons h hs => h :: hs.toList

mutual
/-- `load_from_resources`: `Read<T>` and `Write<T>` load the stored
value at their resource id, `()` loads nothing, and a tuple loads
elementwise. -/
def specLoad : DataSpec → (Nat → Nat) → HVal
  | .read r, store => .readV (store r)
  | .write r, store => .writeV (store r)
  | .unit, _ => .unitV
  | .tuple ds, store => .tupV (specLoadList ds store)

def specLoadList : DataList → (Nat → Nat) → HList
  | .nil, _ => .nil
  | .cons d ds, store => .cons (specLoad d store) (specLoadList ds store)
end

mutual
/-- `prepare`: `Read<T>` and `Write<T>` return themselves (the `&mut
self` view), `()` returns `()`, and a tuple prepares elementwise. -/
def specPrepare : HVal → HVal
  | .readV v => .readV v
  | .writeV v => .writeV v
  | .unitV => .unitV
  | .tupV hs => .tupV (specPrepareList hs)

def specPrepareList : HList → HList
  | .nil => .nil
  | .cons h hs => .cons (specPrepare h) (specPrepareList hs)
end

mutual
/-- `flush`: the trait default is a no-op and `Read`, `Write` and `()`
use the default; a tuple flushes elementwise. -/
def specFlush : HVal → HVal
  | .readV v => .readV v
  | .writeV v => .writeV v
  | .unitV => .unitV
  | .tupV hs => .tupV (specFlushList hs)

def specFlushList : HList → HList
  | .nil => .nil
  | .cons h hs => .cons (specFlush h) (specFlushList hs)
end

theorem specReadsList_eq : ∀ (ds : DataList) (acc : List Nat),
    specReadsList ds acc = acc ++ (ds.toList.map specReads).flatten
  | .nil, acc => by simp [specReadsList, DataList.toList]
  | .cons d rest, acc => by
    rw [specReadsList, specReadsList_eq rest (acc ++ specReads d)]
    simp [DataList.toList]

theorem specWritesList_eq : ∀ (ds : DataList) (acc : List Nat),
    specWritesList ds acc = acc ++ (ds.toList.map specWrites).flatten
  | .nil, acc => by simp [specWritesList, DataList.toList]
  | .cons d rest, acc => by
    rw [specWritesList, specWritesList_eq rest (acc ++ specWrites d)]
    simp [DataList.toList]

theorem specLoadList_toList : ∀ (ds : DataList) (store : Nat → Nat),
    (specLoadList ds store).toList =
      ds.toList.map (fun d => specLoad d store)
  | .nil, _ => rfl
  | .cons d rest, store => by
    simp [specLoadList, DataList.toList, HList.toList,
      specLoadList_toList rest store]

theorem specPrepareList_toList : ∀ hs : HList,
    (specPrepareList hs).toList = hs.toList.map specPrepare
  | .nil => rfl
  | .cons h rest => by
    simp [specPrepareList, HList.toList, specPrepareList_toList rest]

theorem specFlushList_toList : ∀ hs : HList,
    (specFlushList hs).toList = hs.toList.map specFlush
  | .nil => rfl
  | .cons h rest => by
    simp [specFlushList, HList.toList, specFlushList_toList rest]

/-- C9: for every tuple system-data type, `reads()` equals the
concatenation in element order of the component `reads()` and
`writes()` the concatenation of the component `writes()`, while
`load`, `prepare` and `flush` recurse elementwise; the empty tuple
`()` is the identity: its reads and writes are empty and its prepare,
load and flush do nothing. -/
theorem C9_tuple_system_data (ds : DataList) (hs : HList)
    (store : Nat → Nat) :
    specReads (.tuple ds) = (ds.toList.map specReads).flatten ∧
      specWrites (.tuple ds) = (ds.toList.map specWrites).flatten ∧
      specLoad (.tuple ds) store = .tupV (specLoadList ds store) ∧
      (specLoadList ds store).toList =
        ds.toList.map (fun d => specLoad d store) ∧
      specPrepare (.tupV hs) = .tupV (specPrepareList hs) ∧
      (specPrepareList hs).toList = hs.toList.map specPrepare ∧
      specFlush (.tupV hs) = .tupV (specFlushList hs) ∧
      (specFlushList hs).toList = hs.toList.map specFlush ∧
      specReads .unit = [] ∧ specWrites .unit = [] ∧
      specLoad .unit store = .unitV ∧ specPrepare .unitV = .unitV ∧
      specFlush .unitV = .unitV := by
  refine ⟨?_, ?_, rfl, specLoadList_toList ds store, rfl,
    specPrepareList_toList hs, rfl, specFlushList_toList hs, rfl, rfl,
    rfl, rfl, rfl⟩
  · rw [show specReads (.tuple ds) = specReadsList ds [] from rfl,
      specReadsList_eq ds []]
    simp
  · rw [show specWrites (.tuple ds) = specWritesList ds [] from rfl,
      specWritesList_eq ds []]
    simp


end Tonks
